import Mathlib

/-!
Shallow embedding of the metaballs-2d core (src/src/App.tsx): the physics
step with boundary reflection and drag follow, the scalar-field rasterizer
(Space.draw), the marching-squares case table and per-cell segment emission
of the vertex shader, edge interpolation (vertexInterp), and pointer picking
(Space.onClick).  JavaScript numbers are modelled as elements of a linear
ordered field (instantiated at ℝ where the code takes square roots); the
mutable Space object becomes a state record transformed by pure functions.
-/

section PhysicsModel

variable {α : Type} [LinearOrderedField α]

/-- One influence source, mirroring the metaball record of the Space class:
position (x, y), velocity (xvel, yvel) and radius. -/
structure Metaball (α : Type) where
  x : α
  y : α
  xvel : α
  yvel : α
  radius : α
  deriving DecidableEq, Repr

/-- The simulation-relevant state of the Space class: screen extents, the
metaball list, and the interaction state (clicking flag, tracked pointer
position, dragged metaball index with the -1 sentinel of the source). -/
structure Space (α : Type) where
  screenWidth : α
  screenHeight : α
  metaballs : List (Metaball α)
  clicking : Bool
  clickX : α
  clickY : α
  draggedMetaballIndex : Int
  deriving DecidableEq, Repr

/-- The non-dragged branch of Space.step: ball.x += ball.xvel and
ball.y += ball.yvel. -/
def integrate (b : Metaball α) : Metaball α :=
  { b with x := b.x + b.xvel, y := b.y + b.yvel }

/-- The dragged branch of Space.step: newX = 0.1 * clickX + 0.9 * ball.x
(and likewise for y), velocity set to the difference newPos - oldPos, then
position set to newPos. -/
def dragUpdate (clickX clickY : α) (b : Metaball α) : Metaball α :=
  let newX := (0.1 : α) * clickX + (0.9 : α) * b.x
  let newY := (0.1 : α) * clickY + (0.9 : α) * b.y
  { b with xvel := newX - b.x, yvel := newY - b.y, x := newX, y := newY }

/-- First wall check of Space.step: if ball.x < ball.radius, set
ball.x = ball.radius and negate ball.xvel. -/
def clampLowX (b : Metaball α) : Metaball α :=
  if b.x < b.radius then { b with x := b.radius, xvel := -b.xvel } else b

/-- Second wall check of Space.step: if ball.y < ball.radius, set
ball.y = ball.radius and negate ball.yvel. -/
def clampLowY (b : Metaball α) : Metaball α :=
  if b.y < b.radius then { b with y := b.radius, yvel := -b.yvel } else b

/-- Third wall check of Space.step: if ball.x > screenWidth - ball.radius,
clamp ball.x to screenWidth - ball.radius and negate ball.xvel. -/
def clampHighX (screenWidth : α) (b : Metaball α) : Metaball α :=
  if b.x > screenWidth - b.radius then
    { b with x := screenWidth - b.radius, xvel := -b.xvel }
  else b

/-- Fourth wall check of Space.step: if ball.y > screenHeight - ball.radius,
clamp ball.y to screenHeight - ball.radius and negate ball.yvel. -/
def clampHighY (screenHeight : α) (b : Metaball α) : Metaball α :=
  if b.y > screenHeight - b.radius then
    { b with y := screenHeight - b.radius, yvel := -b.yvel }
  else b

/-- One loop iteration of Space.step on a single ball: the dragged or
integration branch followed by the four sequential wall checks in source
order (low x, low y, high x, high y). -/
def stepBall (dragged : Bool) (clickX clickY screenWidth screenHeight : α)
    (b : Metaball α) : Metaball α :=
  clampHighY screenHeight (clampHighX screenWidth (clampLowY (clampLowX
    (if dragged then dragUpdate clickX clickY b else integrate b))))

/-- The indexed loop of Space.step over the metaball list: ball i is dragged
exactly when draggedMetaballIndex equals i. -/
def stepBalls (dragIdx : Int) (clickX clickY screenWidth screenHeight : α) :
    ℕ → List (Metaball α) → List (Metaball α)
  | _, [] => []
  | i, b :: rest =>
      stepBall (decide (dragIdx = (i : Int))) clickX clickY screenWidth
        screenHeight b ::
      stepBalls dragIdx clickX clickY screenWidth screenHeight (i + 1) rest

/-- Space.step: advance every metaball by one tick; nothing else in the
state is touched. -/
def step (s : Space α) : Space α :=
  { s with
    metaballs :=
      stepBalls s.draggedMetaballIndex s.clickX s.clickY s.screenWidth
        s.screenHeight 0 s.metaballs }

end PhysicsModel

section MesherModel

variable {α : Type} [LinearOrderedField α]

/-- The 16 x 4 marching-squares case table of the vertex shader, flattened
row-major exactly as the GLSL array literal. -/
def marchingSquaresTable : List Int :=
  [-1, -1, -1, -1,
    0,  1, -1, -1,
    0,  3, -1, -1,
    1,  3, -1, -1,
    2,  3, -1, -1,
    0,  3,  1,  2,
    0,  2, -1, -1,
    1,  2, -1, -1,
    1,  2, -1, -1,
    0,  2, -1, -1,
    0,  1,  2,  3,
    2,  3, -1, -1,
    1,  3, -1, -1,
    0,  3, -1, -1,
    0,  1, -1, -1,
   -1, -1, -1, -1]

/-- First-corner lookup of the shader: edgeCornersA = [0, 3, 2, 1]. -/
def edgeCornersA : List ℕ := [0, 3, 2, 1]

/-- Second-corner lookup of the shader: edgeCornersB = [1, 0, 3, 2]. -/
def edgeCornersB : List ℕ := [1, 0, 3, 2]

/-- Table lookup marchingSquaresTable[4 * squareIndex + slot]; the shader
index 2 * edgeId + cornerId is always in range 0..3 and the row index is a
4-bit signature, so the getD default is never consulted. -/
def tableEntry (squareIndex slot : ℕ) : Int :=
  marchingSquaresTable.getD (4 * squareIndex + slot) (-1)

/-- The 4-bit case signature of the shader: squareIndex starts at 0 and
adds 1, 2, 4, 8 for corners 0..3 whose field value is strictly above the
iso level. -/
def squareIndex (isoLevel f0 f1 f2 f3 : α) : ℕ :=
  (if f0 > isoLevel then 1 else 0) + (if f1 > isoLevel then 2 else 0) +
  (if f2 > isoLevel then 4 else 0) + (if f3 > isoLevel then 8 else 0)

/-- Field value of corner i of a cell, corners indexed 0..3 as in the
shader corner array (the shader only ever reads indices 0..3). -/
def cornerField (f0 f1 f2 f3 : α) : ℕ → α
  | 0 => f0
  | 1 => f1
  | 2 => f2
  | _ => f3

/-- Render flag of one shader invocation for a given signature, edge slot
(0 or 1) and endpoint (0 or 1): render is 1.0 exactly when the table entry
at 4 * squareIndex + 2 * edgeId + cornerId is not -1. -/
def vertexRender (squareIdx edgeId cornerId : ℕ) : Bool :=
  tableEntry squareIdx (2 * edgeId + cornerId) ≠ -1

/-- A line segment of a cell is emitted (survives the fragment discard of
render == 0.0) exactly when both of its endpoint invocations set render to
1.0. -/
def segmentEmitted (squareIdx edgeId : ℕ) : Bool :=
  vertexRender squareIdx edgeId 0 && vertexRender squareIdx edgeId 1

/-- Number of non-degenerate segments a cell with the given signature
emits (edge slots 0 and 1). -/
def segmentsEmitted (squareIdx : ℕ) : ℕ :=
  (if segmentEmitted squareIdx 0 then 1 else 0) +
  (if segmentEmitted squareIdx 1 then 1 else 0)

/-- Modelled from the words of the spec (section 4.3): the 16-row case
table as printed there, used as the reference side of the claim that the
code table matches it. -/
def specCaseTable : List (List Int) :=
  [[-1, -1, -1, -1], [0, 1, -1, -1], [0, 3, -1, -1], [1, 3, -1, -1],
   [2, 3, -1, -1], [0, 3, 1, 2], [0, 2, -1, -1], [1, 2, -1, -1],
   [1, 2, -1, -1], [0, 2, -1, -1], [0, 1, 2, 3], [2, 3, -1, -1],
   [1, 3, -1, -1], [0, 3, -1, -1], [0, 1, -1, -1], [-1, -1, -1, -1]]

/-- Modelled from the words of the spec: the number of non-(-1) edge-index
pairs in row s of the spec table (slots 0,1 form one pair, slots 2,3 the
other). -/
def specPairCount (s : ℕ) : ℕ :=
  let row := specCaseTable.getD s [-1, -1, -1, -1]
  (if row.getD 0 (-1) ≠ -1 ∧ row.getD 1 (-1) ≠ -1 then 1 else 0) +
  (if row.getD 2 (-1) ≠ -1 ∧ row.getD 3 (-1) ≠ -1 then 1 else 0)

/-- A vec3 of the shader: xy position and z the field sample. -/
structure Vec3 (α : Type) where
  x : α
  y : α
  z : α
  deriving DecidableEq, Repr

/-- vertexInterp of the shader: t = (isoLevel - v1.z) / (v2.z - v1.z) and
the returned point is v1.xy + t * (v2.xy - v1.xy). -/
def vertexInterp (isoLevel : α) (v1 v2 : Vec3 α) : α × α :=
  let t := (isoLevel - v1.z) / (v2.z - v1.z)
  (v1.x + t * (v2.x - v1.x), v1.y + t * (v2.y - v1.y))

end MesherModel

section FieldModel

/-- Euclidean distance used by Space.draw and Space.onClick:
Math.sqrt(Math.pow(px - m.x, 2) + Math.pow(py - m.y, 2)). -/
noncomputable def ballDistance (b : Metaball ℝ) (px py : ℝ) : ℝ :=
  Real.sqrt ((px - b.x) ^ 2 + (py - b.y) ^ 2)

/-- The contribution one metaball adds to the field sum at a grid point in
Space.draw: with r the radius and l = 3 * r, the body of the
if (dist < l) branch, and 0 when the branch is not taken. -/
noncomputable def contribution (b : Metaball ℝ) (px py : ℝ) : ℝ :=
  let dist := ballDistance b px py
  let r := b.radius
  let l := 3 * r
  if dist < l then r / dist - r * (dist - l) / (l * (l - r)) - r / l else 0

/-- The inner accumulation loop of Space.draw at one grid point: sum over
the metaball list of the conditional contribution, starting from 0. -/
noncomputable def cellValue (balls : List (Metaball ℝ)) (px py : ℝ) : ℝ :=
  balls.foldl (fun sum b => sum + contribution b px py) 0

/-- The double write loop of Space.draw: for x in 0..gridWidth-1 and y in
0..gridHeight-1, data[y * gridWidth + x] = cellValue at the point
(x * gridSpacing, y * gridSpacing); the buffer starts as the all-zero
Float32Array of the constructor. -/
noncomputable def drawData (balls : List (Metaball ℝ))
    (gridWidth gridHeight : ℕ) (gridSpacing : ℝ) : ℕ → ℝ :=
  (List.range gridWidth).foldl
    (fun data x =>
      (List.range gridHeight).foldl
        (fun data y =>
          Function.update data (y * gridWidth + x)
            (cellValue balls ((x : ℝ) * gridSpacing) ((y : ℝ) * gridSpacing)))
        data)
    (fun _ => 0)

end FieldModel

section ClickModel

/-- One element of the metaballsWithDistances array built by Space.onClick. -/
structure DistEntry where
  metaball : Metaball ℝ
  distance : ℝ
  index : ℕ

/-- The map with index of Space.onClick: pair every metaball with its
distance to the click point and its position in the list. -/
noncomputable def withDistances (x y : ℝ) : ℕ → List (Metaball ℝ) → List DistEntry
  | _, [] => []
  | i, m :: rest =>
      ⟨m, ballDistance m x y, i⟩ :: withDistances x y (i + 1) rest

/-- The fixed pick radius of Space.onClick. -/
def clickRadius : ℝ := 200

/-- Space.onClick: record the click, sort the metaballs by distance to the
click point (the JS numeric comparator sorts ascending; Array.prototype.sort
is stable, as is mergeSort), and pick the head of the sorted array if it is
within the pick radius.  Indexing element 0 of the empty sorted array and
reading its distance is a JS runtime TypeError, modelled as none. -/
noncomputable def onClick (s : Space ℝ) (x y : ℝ) : Option (Space ℝ) :=
  let s1 := { s with clicking := true, clickX := x, clickY := y }
  let metaballsWithDistances := withDistances x y 0 s.metaballs
  let sorted :=
    metaballsWithDistances.mergeSort fun a b => decide (a.distance ≤ b.distance)
  match sorted with
  | [] => none
  | e :: _ =>
      some (if e.distance < clickRadius then
        { s1 with draggedMetaballIndex := (e.index : Int) }
      else s1)

end ClickModel

section PhysicsLemmas

variable {α : Type} [LinearOrderedField α]

theorem clampLowX_radius (b : Metaball α) : (clampLowX b).radius = b.radius := by
  unfold clampLowX; split <;> rfl

theorem clampLowX_y (b : Metaball α) : (clampLowX b).y = b.y := by
  unfold clampLowX; split <;> rfl

theorem clampLowX_yvel (b : Metaball α) : (clampLowX b).yvel = b.yvel := by
  unfold clampLowX; split <;> rfl

theorem clampLowY_radius (b : Metaball α) : (clampLowY b).radius = b.radius := by
  unfold clampLowY; split <;> rfl

theorem clampLowY_x (b : Metaball α) : (clampLowY b).x = b.x := by
  unfold clampLowY; split <;> rfl

theorem clampLowY_xvel (b : Metaball α) : (clampLowY b).xvel = b.xvel := by
  unfold clampLowY; split <;> rfl

theorem clampHighX_radius (W : α) (b : Metaball α) :
    (clampHighX W b).radius = b.radius := by
  unfold clampHighX; split <;> rfl

theorem clampHighX_y (W : α) (b : Metaball α) : (clampHighX W b).y = b.y := by
  unfold clampHighX; split <;> rfl

theorem clampHighX_yvel (W : α) (b : Metaball α) :
    (clampHighX W b).yvel = b.yvel := by
  unfold clampHighX; split <;> rfl

theorem clampHighY_radius (H : α) (b : Metaball α) :
    (clampHighY H b).radius = b.radius := by
  unfold clampHighY; split <;> rfl

theorem clampHighY_x (H : α) (b : Metaball α) : (clampHighY H b).x = b.x := by
  unfold clampHighY; split <;> rfl

theorem clampHighY_xvel (H : α) (b : Metaball α) :
    (clampHighY H b).xvel = b.xvel := by
  unfold clampHighY; split <;> rfl

theorem clampLowX_x_ge (b : Metaball α) : b.radius ≤ (clampLowX b).x := by
  unfold clampLowX; split
  · exact le_refl _
  · exact not_lt.mp (by assumption)

theorem clampLowY_y_ge (b : Metaball α) : b.radius ≤ (clampLowY b).y := by
  unfold clampLowY; split
  · exact le_refl _
  · exact not_lt.mp (by assumption)

theorem clampHighX_x_bounds (W : α) (b : Metaball α) (hge : b.radius ≤ b.x)
    (h2r : 2 * b.radius ≤ W) :
    b.radius ≤ (clampHighX W b).x ∧ (clampHighX W b).x ≤ W - b.radius := by
  unfold clampHighX; split
  · dsimp only; exact ⟨by linarith, le_refl _⟩
  · exact ⟨hge, not_lt.mp (by assumption)⟩

theorem clampHighY_y_bounds (H : α) (b : Metaball α) (hge : b.radius ≤ b.y)
    (h2r : 2 * b.radius ≤ H) :
    b.radius ≤ (clampHighY H b).y ∧ (clampHighY H b).y ≤ H - b.radius := by
  unfold clampHighY; split
  · dsimp only; exact ⟨by linarith, le_refl _⟩
  · exact ⟨hge, not_lt.mp (by assumption)⟩

theorem stepBall_radius (d : Bool) (cX cY W H : α) (b : Metaball α) :
    (stepBall d cX cY W H b).radius = b.radius := by
  unfold stepBall
  rw [clampHighY_radius, clampHighX_radius, clampLowY_radius, clampLowX_radius]
  cases d <;> simp [dragUpdate, integrate]

theorem stepBall_x_bounds (d : Bool) (cX cY W H : α) (b : Metaball α)
    (h2r : 2 * b.radius ≤ W) :
    b.radius ≤ (stepBall d cX cY W H b).x ∧
      (stepBall d cX cY W H b).x ≤ W - b.radius := by
  unfold stepBall
  set c := if d then dragUpdate cX cY b else integrate b with hc
  have hrc : c.radius = b.radius := by cases d <;> simp [hc, dragUpdate, integrate]
  have h1 : c.radius ≤ (clampLowX c).x := clampLowX_x_ge c
  have h2 : (clampLowY (clampLowX c)).x = (clampLowX c).x := clampLowY_x _
  have h3 : (clampLowY (clampLowX c)).radius = c.radius := by
    rw [clampLowY_radius, clampLowX_radius]
  have h4 := clampHighX_x_bounds W (clampLowY (clampLowX c))
    (by rw [h2, h3]; exact h1) (by rw [h3, hrc]; exact h2r)
  have h5 : (clampHighX W (clampLowY (clampLowX c))).radius = b.radius := by
    rw [clampHighX_radius, h3, hrc]
  rw [clampHighY_x]
  constructor
  · have := h4.1; rw [h3, hrc] at this; exact this
  · have := h4.2; rw [h3, hrc] at this; exact this

theorem stepBall_y_bounds (d : Bool) (cX cY W H : α) (b : Metaball α)
    (h2rW : 2 * b.radius ≤ W) (h2rH : 2 * b.radius ≤ H) :
    b.radius ≤ (stepBall d cX cY W H b).y ∧
      (stepBall d cX cY W H b).y ≤ H - b.radius := by
  unfold stepBall
  set c := if d then dragUpdate cX cY b else integrate b with hc
  have hrc : c.radius = b.radius := by cases d <;> simp [hc, dragUpdate, integrate]
  have h1 : (clampLowX c).radius ≤ (clampLowY (clampLowX c)).y :=
    clampLowY_y_ge (clampLowX c)
  have h2 : (clampHighX W (clampLowY (clampLowX c))).y =
      (clampLowY (clampLowX c)).y := clampHighX_y _ _
  have h3 : (clampHighX W (clampLowY (clampLowX c))).radius = b.radius := by
    rw [clampHighX_radius, clampLowY_radius, clampLowX_radius, hrc]
  have h4 := clampHighY_y_bounds H (clampHighX W (clampLowY (clampLowX c)))
    (by rw [h2, h3] at *; rw [h3]; rw [h2]
        have : (clampLowX c).radius = b.radius := by rw [clampLowX_radius, hrc]
        rw [this] at h1; exact h1)
    (by rw [h3]; exact h2rH)
  rw [h3] at h4
  exact h4

end PhysicsLemmas

section StepLemmas

variable {α : Type} [LinearOrderedField α]

theorem stepBalls_map_radius (dragIdx : Int) (cX cY W H : α) :
    ∀ (i : ℕ) (l : List (Metaball α)),
      (stepBalls dragIdx cX cY W H i l).map Metaball.radius =
        l.map Metaball.radius
  | _, [] => rfl
  | i, b :: rest => by
      simp only [stepBalls, List.map_cons, stepBall_radius,
        stepBalls_map_radius dragIdx cX cY W H (i + 1) rest]

theorem stepBalls_length (dragIdx : Int) (cX cY W H : α) (i : ℕ)
    (l : List (Metaball α)) :
    (stepBalls dragIdx cX cY W H i l).length = l.length := by
  have := congrArg List.length (stepBalls_map_radius dragIdx cX cY W H i l)
  simpa using this

theorem mem_stepBalls (dragIdx : Int) (cX cY W H : α) :
    ∀ (i : ℕ) (l : List (Metaball α)) (b : Metaball α),
      b ∈ stepBalls dragIdx cX cY W H i l →
      ∃ b0 ∈ l, ∃ d : Bool, b = stepBall d cX cY W H b0
  | _, [], _, h => by simp [stepBalls] at h
  | i, b0 :: rest, b, h => by
      rcases (List.mem_cons).mp h with h1 | h2
      · exact ⟨b0, List.mem_cons_self _ _, _, h1⟩
      · rcases mem_stepBalls dragIdx cX cY W H (i + 1) rest b h2 with
          ⟨b1, hb1, d, hd⟩
        exact ⟨b1, List.mem_cons_of_mem _ hb1, d, hd⟩

theorem stepBalls_getElem? (dragIdx : Int) (cX cY W H : α) :
    ∀ (k j : ℕ) (l : List (Metaball α)),
      (stepBalls dragIdx cX cY W H k l)[j]? =
        l[j]?.map fun b =>
          stepBall (decide (dragIdx = ((k + j : ℕ) : Int))) cX cY W H b
  | _, _, [] => by simp [stepBalls]
  | k, 0, b :: rest => by simp [stepBalls]
  | k, j + 1, b :: rest => by
      have h : k + 1 + j = k + (j + 1) := by omega
      simp only [stepBalls, List.getElem?_cons_succ,
        stepBalls_getElem? dragIdx cX cY W H (k + 1) j rest, h]

theorem step_metaballs_getElem? (s : Space α) (j : ℕ) :
    (step s).metaballs[j]? =
      s.metaballs[j]?.map fun b =>
        stepBall (decide (s.draggedMetaballIndex = (j : Int))) s.clickX
          s.clickY s.screenWidth s.screenHeight b := by
  have := stepBalls_getElem? s.draggedMetaballIndex s.clickX s.clickY
    s.screenWidth s.screenHeight 0 j s.metaballs
  simpa [step] using this

end StepLemmas

/-- Claim C10: step() mutates only metaball positions and velocities — the
radius of every metaball (pointwise, as the list of radii), the number of
metaballs, and the interaction state (clicking flag, pointer position,
dragged metaball index) as well as the screen extents are all unchanged. -/
theorem claimC10_step_frame {α : Type} [LinearOrderedField α] (s : Space α) :
    (step s).metaballs.map Metaball.radius = s.metaballs.map Metaball.radius ∧
    (step s).metaballs.length = s.metaballs.length ∧
    (step s).clicking = s.clicking ∧
    (step s).clickX = s.clickX ∧
    (step s).clickY = s.clickY ∧
    (step s).draggedMetaballIndex = s.draggedMetaballIndex ∧
    (step s).screenWidth = s.screenWidth ∧
    (step s).screenHeight = s.screenHeight :=
  ⟨stepBalls_map_radius _ _ _ _ _ 0 s.metaballs,
   stepBalls_length _ _ _ _ _ 0 s.metaballs, rfl, rfl, rfl, rfl, rfl, rfl⟩

section BoundLemmas

variable {α : Type} [LinearOrderedField α]

theorem stepBall_corner (cX cY W H : α) (b : Metaball α)
    (h2rW : 2 * b.radius ≤ W) (h2rH : 2 * b.radius ≤ H)
    (hx : b.x + b.xvel < b.radius) (hy : b.y + b.yvel < b.radius) :
    stepBall false cX cY W H b =
      ⟨b.radius, b.radius, -b.xvel, -b.yvel, b.radius⟩ := by
  have h1 : clampLowX (integrate b) =
      ⟨b.radius, b.y + b.yvel, -b.xvel, b.yvel, b.radius⟩ := by
    unfold clampLowX integrate; dsimp only; rw [if_pos hx]
  have h2 : clampLowY (⟨b.radius, b.y + b.yvel, -b.xvel, b.yvel, b.radius⟩ :
      Metaball α) = ⟨b.radius, b.radius, -b.xvel, -b.yvel, b.radius⟩ := by
    unfold clampLowY; dsimp only; rw [if_pos hy]
  have h3 : clampHighX W (⟨b.radius, b.radius, -b.xvel, -b.yvel, b.radius⟩ :
      Metaball α) = ⟨b.radius, b.radius, -b.xvel, -b.yvel, b.radius⟩ := by
    unfold clampHighX; dsimp only; rw [if_neg (by push_neg; linarith)]
  have h4 : clampHighY H (⟨b.radius, b.radius, -b.xvel, -b.yvel, b.radius⟩ :
      Metaball α) = ⟨b.radius, b.radius, -b.xvel, -b.yvel, b.radius⟩ := by
    unfold clampHighY; dsimp only; rw [if_neg (by push_neg; linarith)]
  show clampHighY H (clampHighX W (clampLowY (clampLowX (integrate b)))) = _
  rw [h1, h2, h3, h4]

theorem step_bounds_one (s : Space α)
    (hrad : ∀ b ∈ s.metaballs,
      2 * b.radius ≤ s.screenWidth ∧ 2 * b.radius ≤ s.screenHeight) :
    ∀ b ∈ (step s).metaballs,
      b.radius ≤ b.x ∧ b.x ≤ s.screenWidth - b.radius ∧
      b.radius ≤ b.y ∧ b.y ≤ s.screenHeight - b.radius := by
  intro b hb
  rcases mem_stepBalls s.draggedMetaballIndex s.clickX s.clickY s.screenWidth
    s.screenHeight 0 s.metaballs b hb with ⟨b0, hb0, d, rfl⟩
  rcases hrad b0 hb0 with ⟨hW, hH⟩
  have hr := stepBall_radius d s.clickX s.clickY s.screenWidth s.screenHeight b0
  have hxb := stepBall_x_bounds d s.clickX s.clickY s.screenWidth
    s.screenHeight b0 hW
  have hyb := stepBall_y_bounds d s.clickX s.clickY s.screenWidth
    s.screenHeight b0 hW hH
  rw [hr]
  exact ⟨hxb.1, hxb.2, hyb.1, hyb.2⟩

theorem step_iterate_frame (s : Space α) (n : ℕ) :
    (step^[n] s).screenWidth = s.screenWidth ∧
    (step^[n] s).screenHeight = s.screenHeight ∧
    (step^[n] s).metaballs.map Metaball.radius =
      s.metaballs.map Metaball.radius := by
  induction n with
  | zero => exact ⟨rfl, rfl, rfl⟩
  | succ m ih =>
      rw [Function.iterate_succ_apply']
      refine ⟨ih.1, ih.2.1, ?_⟩
      rw [show (step (step^[m] s)).metaballs.map Metaball.radius =
        (step^[m] s).metaballs.map Metaball.radius from
        stepBalls_map_radius _ _ _ _ _ 0 _]
      exact ih.2.2

theorem radius_transfer {t s : Space α}
    (h : t.metaballs.map Metaball.radius = s.metaballs.map Metaball.radius)
    (P : α → Prop) (hP : ∀ b ∈ s.metaballs, P b.radius) :
    ∀ b ∈ t.metaballs, P b.radius := by
  intro b hb
  have hm : b.radius ∈ t.metaballs.map Metaball.radius :=
    List.mem_map_of_mem _ hb
  rw [h] at hm
  rcases List.mem_map.mp hm with ⟨b0, hb0, he⟩
  rw [← he]
  exact hP b0 hb0

end BoundLemmas

/-- Claim C3 (amended): for every metaball whose radius is positive and at
most half of each screen extent, after at least one step() call (dragged or
not, from any starting state) the position lies within
[radius, screenWidth - radius] x [radius, screenHeight - radius]; and a
corner contact reflects both axes independently in the same tick. -/
theorem claimC3_bounds_amended {α : Type} [LinearOrderedField α]
    (s : Space α)
    (hrad : ∀ b ∈ s.metaballs, 0 < b.radius ∧
      2 * b.radius ≤ s.screenWidth ∧ 2 * b.radius ≤ s.screenHeight)
    (n : ℕ) (hn : 1 ≤ n) :
    (∀ b ∈ (step^[n] s).metaballs,
      b.radius ≤ b.x ∧ b.x ≤ s.screenWidth - b.radius ∧
      b.radius ≤ b.y ∧ b.y ≤ s.screenHeight - b.radius) ∧
    (∀ (cX cY : α) (b : Metaball α),
      2 * b.radius ≤ s.screenWidth → 2 * b.radius ≤ s.screenHeight →
      b.x + b.xvel < b.radius → b.y + b.yvel < b.radius →
      stepBall false cX cY s.screenWidth s.screenHeight b =
        ⟨b.radius, b.radius, -b.xvel, -b.yvel, b.radius⟩) := by
  constructor
  · obtain ⟨m, rfl⟩ : ∃ m, n = m + 1 := ⟨n - 1, by omega⟩
    rw [Function.iterate_succ_apply']
    set t := step^[m] s with ht
    obtain ⟨hW, hH, hmap⟩ := step_iterate_frame s m
    have hradt : ∀ b ∈ t.metaballs,
        2 * b.radius ≤ t.screenWidth ∧ 2 * b.radius ≤ t.screenHeight := by
      have := radius_transfer hmap
        (fun r => 2 * r ≤ s.screenWidth ∧ 2 * r ≤ s.screenHeight)
        (fun b hb => ⟨(hrad b hb).2.1, (hrad b hb).2.2⟩)
      intro b hb
      rw [hW, hH]
      exact this b hb
    intro b hb
    have := step_bounds_one t hradt b hb
    rw [hW, hH] at this
    exact this
  · intro cX cY b h1 h2 h3 h4
    exact stepBall_corner cX cY s.screenWidth s.screenHeight b h1 h2 h3 h4

/-- Counterexample to claim C3 as stated: with only radius > 0 assumed, a
metaball of radius 2 on a 3 x 3 screen leaves [radius, extent - radius]
after one step (the interval is empty and the two sequential wall checks
both fire); and with zero step() calls an arbitrary starting state is
already outside the interval. -/
theorem claimC3_counterexample :
    (¬ ∀ b ∈ (step (⟨3, 3, [⟨2, 2, 0, 0, 2⟩], false, 0, 0, -1⟩ :
        Space ℚ)).metaballs,
      b.radius ≤ b.x ∧ b.x ≤ (3 : ℚ) - b.radius ∧
      b.radius ≤ b.y ∧ b.y ≤ (3 : ℚ) - b.radius) ∧
    (¬ ∀ b ∈ (step^[0] (⟨100, 100, [⟨0, 50, 0, 0, 1⟩], false, 0, 0, -1⟩ :
        Space ℚ)).metaballs,
      b.radius ≤ b.x ∧ b.x ≤ (100 : ℚ) - b.radius ∧
      b.radius ≤ b.y ∧ b.y ≤ (100 : ℚ) - b.radius) := by
  refine ⟨?_, ?_⟩ <;>
    norm_num [Function.iterate_zero, step, stepBalls, stepBall, integrate,
      dragUpdate, clampLowX, clampLowY, clampHighX, clampHighY]

/-- Witness for the amended claim C3 at a concrete state: one ball of
radius 2 at (5, 5) with velocity (1, 1) on a 10 x 10 screen, one step. -/
theorem claimC3_bounds_amended_witness :
    (2 : ℚ) ≤ 6 ∧ (6 : ℚ) ≤ 10 - 2 ∧ (2 : ℚ) ≤ 6 ∧ (6 : ℚ) ≤ 10 - 2 :=
  (claimC3_bounds_amended
    (⟨10, 10, [⟨5, 5, 1, 1, 2⟩], false, 0, 0, -1⟩ : Space ℚ)
    (by norm_num) 1 (by norm_num)).1 ⟨6, 6, 1, 1, 2⟩
    (by norm_num [step, stepBalls, stepBall, integrate, dragUpdate,
      clampLowX, clampLowY, clampHighX, clampHighY])

/-- Claim C5 (amended): when step() processes the currently dragged
metaball with pointer at (clickX, clickY), the drag branch sets the new
position to 0.1 * pointer + 0.9 * current and the velocity to
newPos - current, before the boundary clamps are applied; the pre-clamp
target is closer to the pointer by exactly the factor 0.9 per axis (hence
the squared distance scales by 0.9 squared), and the stepped ball equals
that target exactly whenever the target needs no clamping. -/
theorem claimC5_drag_amended {α : Type} [LinearOrderedField α] (s : Space α)
    (i : ℕ) (b : Metaball α) (hb : s.metaballs[i]? = some b)
    (hdrag : s.draggedMetaballIndex = (i : Int)) :
    dragUpdate s.clickX s.clickY b =
      ⟨(0.1 : α) * s.clickX + (0.9 : α) * b.x,
       (0.1 : α) * s.clickY + (0.9 : α) * b.y,
       (0.1 : α) * s.clickX + (0.9 : α) * b.x - b.x,
       (0.1 : α) * s.clickY + (0.9 : α) * b.y - b.y, b.radius⟩ ∧
    (step s).metaballs[i]? =
      some (clampHighY s.screenHeight (clampHighX s.screenWidth
        (clampLowY (clampLowX (dragUpdate s.clickX s.clickY b))))) ∧
    (dragUpdate s.clickX s.clickY b).x - s.clickX =
      (0.9 : α) * (b.x - s.clickX) ∧
    (dragUpdate s.clickX s.clickY b).y - s.clickY =
      (0.9 : α) * (b.y - s.clickY) ∧
    ((dragUpdate s.clickX s.clickY b).x - s.clickX) ^ 2 +
        ((dragUpdate s.clickX s.clickY b).y - s.clickY) ^ 2 =
      (0.9 : α) ^ 2 * ((b.x - s.clickX) ^ 2 + (b.y - s.clickY) ^ 2) ∧
    (b.radius ≤ (dragUpdate s.clickX s.clickY b).x →
     (dragUpdate s.clickX s.clickY b).x ≤ s.screenWidth - b.radius →
     b.radius ≤ (dragUpdate s.clickX s.clickY b).y →
     (dragUpdate s.clickX s.clickY b).y ≤ s.screenHeight - b.radius →
     (step s).metaballs[i]? = some (dragUpdate s.clickX s.clickY b)) := by
  have hstep : (step s).metaballs[i]? =
      some (stepBall true s.clickX s.clickY s.screenWidth s.screenHeight b) := by
    rw [step_metaballs_getElem?, hb, hdrag]
    simp
  have hxproj : (dragUpdate s.clickX s.clickY b).x =
      (0.1 : α) * s.clickX + (0.9 : α) * b.x := rfl
  have hyproj : (dragUpdate s.clickX s.clickY b).y =
      (0.1 : α) * s.clickY + (0.9 : α) * b.y := rfl
  have hxr : (dragUpdate s.clickX s.clickY b).x - s.clickX =
      (0.9 : α) * (b.x - s.clickX) := by rw [hxproj]; ring_nf
  have hyr : (dragUpdate s.clickX s.clickY b).y - s.clickY =
      (0.9 : α) * (b.y - s.clickY) := by rw [hyproj]; ring_nf
  refine ⟨rfl, ?_, hxr, hyr, ?_, ?_⟩
  · rw [hstep]; rfl
  · rw [hxr, hyr]; ring
  · intro h1 h2 h3 h4
    have hrd : (dragUpdate s.clickX s.clickY b).radius = b.radius := rfl
    have e1 : clampLowX (dragUpdate s.clickX s.clickY b) =
        dragUpdate s.clickX s.clickY b := by
      unfold clampLowX
      rw [if_neg (not_lt.mpr (by rw [hrd]; exact h1))]
    have e2 : clampLowY (dragUpdate s.clickX s.clickY b) =
        dragUpdate s.clickX s.clickY b := by
      unfold clampLowY
      rw [if_neg (not_lt.mpr (by rw [hrd]; exact h3))]
    have e3 : clampHighX s.screenWidth (dragUpdate s.clickX s.clickY b) =
        dragUpdate s.clickX s.clickY b := by
      unfold clampHighX
      rw [if_neg (not_lt.mpr (by rw [hrd]; exact h2))]
    have e4 : clampHighY s.screenHeight (dragUpdate s.clickX s.clickY b) =
        dragUpdate s.clickX s.clickY b := by
      unfold clampHighY
      rw [if_neg (not_lt.mpr (by rw [hrd]; exact h4))]
    rw [hstep]
    show some (clampHighY s.screenHeight (clampHighX s.screenWidth
      (clampLowY (clampLowX (dragUpdate s.clickX s.clickY b))))) = _
    rw [e1, e2, e3, e4]

/-- Counterexample to claim C5 as stated: with the pointer held at (0, 5)
and the dragged ball of radius 5 at (5, 5) on a 10 x 10 screen, the blended
target (4.5, 5) is clamped back to (5, 5), so the squared distance to the
pointer stays 25 instead of shrinking to 0.9 squared times 25. -/
theorem claimC5_counterexample :
    ¬ ((step (⟨10, 10, [⟨5, 5, 0, 0, 5⟩], true, 0, 5, 0⟩ :
        Space ℚ)).metaballs.map
        (fun b => (b.x - 0) ^ 2 + (b.y - 5) ^ 2) =
      [(0.9 : ℚ) ^ 2 * (((5 : ℚ) - 0) ^ 2 + ((5 : ℚ) - 5) ^ 2)]) := by
  norm_num [step, stepBalls, stepBall, integrate, dragUpdate, clampLowX,
    clampLowY, clampHighX, clampHighY]

/-- Witness for the amended claim C5: ball 0 at (50, 50) with radius 10 is
dragged toward the pointer (60, 60) on a 100 x 100 screen; the blend needs
no clamping, so the stepped ball is exactly the blended target. -/
theorem claimC5_drag_amended_witness :
    (step (⟨100, 100, [⟨50, 50, 0, 0, 10⟩], true, 60, 60, 0⟩ :
        Space ℚ)).metaballs[0]? =
      some (dragUpdate (60 : ℚ) 60 ⟨50, 50, 0, 0, 10⟩) :=
  (claimC5_drag_amended
    (⟨100, 100, [⟨50, 50, 0, 0, 10⟩], true, 60, 60, 0⟩ : Space ℚ) 0
    ⟨50, 50, 0, 0, 10⟩ rfl rfl).2.2.2.2.2
    (by norm_num [dragUpdate]) (by norm_num [dragUpdate])
    (by norm_num [dragUpdate]) (by norm_num [dragUpdate])

/-- Claim C6 (amended): for a non-dragged metaball, step() first integrates
position by velocity and then applies the four sequential per-axis wall
checks; in particular a ball whose diameter fits the screen
(2 * radius <= screenWidth) sitting at x = radius with xvel < 0 ends the
tick at x = radius with its x velocity negated. -/
theorem claimC6_reflect_amended {α : Type} [LinearOrderedField α]
    (cX cY W H : α) (b : Metaball α) (hx : b.x = b.radius)
    (hv : b.xvel < 0) (h2r : 2 * b.radius ≤ W) :
    stepBall false cX cY W H b =
      clampHighY H (clampHighX W (clampLowY (clampLowX (integrate b)))) ∧
    (stepBall false cX cY W H b).x = b.radius ∧
    (stepBall false cX cY W H b).xvel = -b.xvel := by
  have h1 : clampLowX (integrate b) =
      ⟨b.radius, b.y + b.yvel, -b.xvel, b.yvel, b.radius⟩ := by
    unfold clampLowX integrate
    dsimp only
    rw [if_pos (by rw [hx]; linarith)]
  have hx2 : (clampLowY (⟨b.radius, b.y + b.yvel, -b.xvel, b.yvel,
      b.radius⟩ : Metaball α)).x = b.radius := clampLowY_x _
  have hv2 : (clampLowY (⟨b.radius, b.y + b.yvel, -b.xvel, b.yvel,
      b.radius⟩ : Metaball α)).xvel = -b.xvel := clampLowY_xvel _
  have hr2 : (clampLowY (⟨b.radius, b.y + b.yvel, -b.xvel, b.yvel,
      b.radius⟩ : Metaball α)).radius = b.radius := clampLowY_radius _
  have h3 : clampHighX W (clampLowY (⟨b.radius, b.y + b.yvel, -b.xvel,
      b.yvel, b.radius⟩ : Metaball α)) =
      clampLowY (⟨b.radius, b.y + b.yvel, -b.xvel, b.yvel, b.radius⟩ :
        Metaball α) := by
    unfold clampHighX
    rw [if_neg (not_lt.mpr (by rw [hx2, hr2]; linarith))]
  have hmain : stepBall false cX cY W H b =
      clampHighY H (clampHighX W (clampLowY (clampLowX (integrate b)))) := rfl
  refine ⟨hmain, ?_, ?_⟩
  · rw [hmain, h1, h3, clampHighY_x, hx2]
  · rw [hmain, h1, h3, clampHighY_xvel, hv2]

/-- Counterexample to claim C6 as stated: a ball of radius 2 at
x = radius = 2 with xvel = -1 on a 3 x 3 screen does not end the tick at
x = radius with negated velocity — the high-wall check fires right after
the low-wall check (the diameter exceeds the screen), leaving x = 1 and
xvel = -1. -/
theorem claimC6_counterexample :
    ¬ ((step (⟨3, 3, [⟨2, 2, -1, 0, 2⟩], false, 0, 0, -1⟩ :
        Space ℚ)).metaballs.map (fun b => (b.x, b.xvel)) =
      [((2 : ℚ), (1 : ℚ))]) := by
  norm_num [step, stepBalls, stepBall, integrate, dragUpdate, clampLowX,
    clampLowY, clampHighX, clampHighY]

/-- Witness for the amended claim C6: a ball of radius 1 at x = 1 with
xvel = -1/2 on a 4 x 4 screen reflects to x = 1 with xvel = 1/2. -/
theorem claimC6_reflect_amended_witness :
    (stepBall false (0 : ℚ) 0 4 4 ⟨1, 2, -1/2, 0, 1⟩).x = 1 ∧
    (stepBall false (0 : ℚ) 0 4 4 ⟨1, 2, -1/2, 0, 1⟩).xvel = -(-1/2) :=
  (claimC6_reflect_amended 0 0 4 4 ⟨1, 2, -1/2, 0, 1⟩ rfl (by norm_num)
    (by norm_num)).2

/-- Claim C4: the contour crossing on a cell edge is computed as
p1 + t * (p2 - p1) with t = (iso - v1.field) / (v2.field - v1.field); in
particular for field values 0.5 and 1.5 at endpoints (0,0) and (1,0) with
iso level 1.0 the crossing is exactly (0.5, 0). -/
theorem claimC4_vertexInterp_exact {α : Type} [LinearOrderedField α] :
    vertexInterp (1 : α) ⟨0, 0, 0.5⟩ ⟨1, 0, 1.5⟩ = ((0.5 : α), 0) ∧
    ∀ (isoLevel : α) (v1 v2 : Vec3 α),
      vertexInterp isoLevel v1 v2 =
        (v1.x + (isoLevel - v1.z) / (v2.z - v1.z) * (v2.x - v1.x),
         v1.y + (isoLevel - v1.z) / (v2.z - v1.z) * (v2.y - v1.y)) := by
  constructor
  · unfold vertexInterp
    dsimp only
    norm_num
  · intro isoLevel v1 v2
    rfl

/-- Claim C1: for every 4-bit case signature (bit i set when corner i is
above the iso level) the meshing stage emits exactly as many non-degenerate
segments as there are non-(-1) edge-index pairs in the corresponding row of
the case table given in the spec; cases 0 and 15 emit 0 segments, the
saddle cases 5 and 10 emit 2 segments each with both diagonal edge-pairs,
and the code table coincides row by row with the spec table. -/
theorem claimC1_caseTable_counts {α : Type} [LinearOrderedField α]
    (isoLevel f0 f1 f2 f3 : α) :
    segmentsEmitted (squareIndex isoLevel f0 f1 f2 f3) =
      specPairCount (squareIndex isoLevel f0 f1 f2 f3) ∧
    segmentsEmitted 0 = 0 ∧ segmentsEmitted 15 = 0 ∧
    segmentsEmitted 5 = 2 ∧ segmentsEmitted 10 = 2 ∧
    (tableEntry 5 0 = 0 ∧ tableEntry 5 1 = 3 ∧
     tableEntry 5 2 = 1 ∧ tableEntry 5 3 = 2) ∧
    (tableEntry 10 0 = 0 ∧ tableEntry 10 1 = 1 ∧
     tableEntry 10 2 = 2 ∧ tableEntry 10 3 = 3) ∧
    marchingSquaresTable = specCaseTable.join := by
  have h16 : squareIndex isoLevel f0 f1 f2 f3 < 16 := by
    unfold squareIndex
    split_ifs <;> norm_num
  have key : ∀ s < 16, segmentsEmitted s = specPairCount s := by decide
  exact ⟨key _ h16, by decide, by decide, by decide, by decide, by decide,
    by decide, by decide⟩

theorem straddle_ne {α : Type} [LinearOrderedField α] {a b isoLevel : α}
    (h : a > isoLevel ↔ ¬ b > isoLevel) : b - a ≠ 0 := by
  rw [sub_ne_zero]
  intro heq
  by_cases ha : a > isoLevel
  · have hb := h.mp ha
    rw [not_lt] at hb
    linarith [heq]
  · have hb : b > isoLevel := by
      by_contra hb
      exact ha (h.mpr hb)
    rw [not_lt] at ha
    linarith [heq]

set_option maxHeartbeats 4000000 in
/-- Claim C9: on every edge selected by a non-degenerate table entry, one
endpoint field value is strictly above the iso level and the other is not,
so the divisor v2.field - v1.field of vertexInterp is nonzero; the
equal-endpoint situation the claim guards against cannot occur for a
selected edge, hence no NaN or garbage coordinate is ever produced. -/
theorem claimC9_interp_divisor {α : Type} [LinearOrderedField α]
    (isoLevel f0 f1 f2 f3 : α) (slot : ℕ) (hslot : slot < 4)
    (hne : tableEntry (squareIndex isoLevel f0 f1 f2 f3) slot ≠ -1) :
    (cornerField f0 f1 f2 f3 (edgeCornersA.getD
        (tableEntry (squareIndex isoLevel f0 f1 f2 f3) slot).toNat 0) >
        isoLevel ↔
      ¬ cornerField f0 f1 f2 f3 (edgeCornersB.getD
        (tableEntry (squareIndex isoLevel f0 f1 f2 f3) slot).toNat 0) >
        isoLevel) ∧
    cornerField f0 f1 f2 f3 (edgeCornersB.getD
        (tableEntry (squareIndex isoLevel f0 f1 f2 f3) slot).toNat 0) -
      cornerField f0 f1 f2 f3 (edgeCornersA.getD
        (tableEntry (squareIndex isoLevel f0 f1 f2 f3) slot).toNat 0) ≠ 0 := by
  have hiff : cornerField f0 f1 f2 f3 (edgeCornersA.getD
      (tableEntry (squareIndex isoLevel f0 f1 f2 f3) slot).toNat 0) >
      isoLevel ↔
      ¬ cornerField f0 f1 f2 f3 (edgeCornersB.getD
        (tableEntry (squareIndex isoLevel f0 f1 f2 f3) slot).toNat 0) >
        isoLevel := by
    by_cases h0 : f0 > isoLevel <;> by_cases h1 : f1 > isoLevel <;>
      by_cases h2 : f2 > isoLevel <;> by_cases h3 : f3 > isoLevel <;>
      norm_num [squareIndex, h0, h1, h2, h3] at hne ⊢ <;>
      interval_cases slot <;>
      simp [tableEntry, marchingSquaresTable, edgeCornersA,
        edgeCornersB, cornerField, h0, h1, h2, h3] at hne ⊢ <;>
      linarith
  exact ⟨hiff, straddle_ne hiff⟩

/-- Witness for claim C9 at a concrete cell: signature 1 (only corner 0
above the iso level 1), slot 0 selects edge 0 between corners 0 and 1 with
field values 2 and 0, which straddle the iso level. -/
theorem claimC9_interp_divisor_witness :
    ((2 : ℚ) > 1 ↔ ¬ (0 : ℚ) > 1) ∧ (0 : ℚ) - 2 ≠ 0 :=
  claimC9_interp_divisor (1 : ℚ) 2 0 0 0 0 (by norm_num) (by decide)

section ClickLemmas

theorem withDistances_getElem? (x y : ℝ) :
    ∀ (k j : ℕ) (l : List (Metaball ℝ)),
      (withDistances x y k l)[j]? =
        l[j]?.map fun m => (⟨m, ballDistance m x y, k + j⟩ : DistEntry)
  | _, _, [] => by simp [withDistances]
  | k, 0, m :: rest => by simp [withDistances]
  | k, j + 1, m :: rest => by
      have h : k + 1 + j = k + (j + 1) := by omega
      simp only [withDistances, List.getElem?_cons_succ,
        withDistances_getElem? x y (k + 1) j rest, h]

theorem withDistances_length (x y : ℝ) :
    ∀ (k : ℕ) (l : List (Metaball ℝ)),
      (withDistances x y k l).length = l.length
  | _, [] => rfl
  | k, m :: rest => by
      simp [withDistances, withDistances_length x y (k + 1) rest]

theorem mem_withDistances {x y : ℝ} {l : List (Metaball ℝ)} {e : DistEntry}
    (he : e ∈ withDistances x y 0 l) :
    ∃ j : ℕ, l[j]? = some e.metaball ∧ e.index = j ∧
      e.distance = ballDistance e.metaball x y := by
  rcases List.mem_iff_getElem?.mp he with ⟨j, hj⟩
  rw [withDistances_getElem?] at hj
  cases hl : l[j]? with
  | none => rw [hl] at hj; simp at hj
  | some m =>
      rw [hl] at hj
      simp only [Option.map_some'] at hj
      have hme := Option.some.inj hj
      refine ⟨j, ?_, ?_, ?_⟩ <;> rw [← hme] <;> simp [hl]

theorem withDistances_mem_of (x y : ℝ) {l : List (Metaball ℝ)} {j : ℕ}
    {m : Metaball ℝ} (h : l[j]? = some m) :
    (⟨m, ballDistance m x y, j⟩ : DistEntry) ∈ withDistances x y 0 l := by
  apply List.mem_iff_getElem?.mpr
  refine ⟨j, ?_⟩
  rw [withDistances_getElem?, h]
  simp

theorem mergeSort_head_min (wd : List DistEntry) (e : DistEntry)
    (rest : List DistEntry)
    (h : wd.mergeSort (fun a b => decide (a.distance ≤ b.distance)) =
      e :: rest) :
    e ∈ wd ∧ ∀ f ∈ wd, e.distance ≤ f.distance := by
  have hperm := List.mergeSort_perm wd
    (fun a b => decide (a.distance ≤ b.distance))
  rw [h] at hperm
  have hsorted := @List.sorted_mergeSort DistEntry
    (fun a b => decide (a.distance ≤ b.distance))
    (fun a b c hab hbc => by
      simp only [decide_eq_true_eq] at hab hbc ⊢
      exact le_trans hab hbc)
    (fun a b => by
      simp only [Bool.or_eq_true, decide_eq_true_eq]
      exact le_total _ _)
    wd
  rw [h] at hsorted
  constructor
  · exact hperm.mem_iff.mp (List.mem_cons_self _ _)
  · intro f hf
    rcases List.mem_cons.mp (hperm.mem_iff.mpr hf) with rfl | hfr
    · exact le_refl _
    · have := (List.pairwise_cons.mp hsorted).1 f hfr
      simpa using this

end ClickLemmas

/-- Counterexample to claim C7 as stated: calling onClick with zero
metaballs is a runtime error (the code reads the distance field of element
0 of an empty sorted array), modelled as the none result — the call does
not complete normally. -/
theorem claimC7_counterexample :
    onClick (⟨800, 600, [], false, 0, 0, -1⟩ : Space ℝ) 100 100 = none := by
  simp [onClick, withDistances, List.mergeSort_nil]

/-- Claim C7 (amended): with at least one metaball, onClick completes
normally, records the click, and leaves everything but the dragged index
unchanged; if no metaball is within the pick radius of 200 the dragged
index is unchanged, and if some metaball is within 200 a nearest one
(Euclidean distance) is marked as dragged.  With zero metaballs the call
indexes element 0 of an empty array and fails. -/
theorem claimC7_onClick_amended (s : Space ℝ) (x y : ℝ)
    (h : s.metaballs ≠ []) :
    ∃ s2 : Space ℝ, onClick s x y = some s2 ∧
      s2.clicking = true ∧ s2.clickX = x ∧ s2.clickY = y ∧
      s2.metaballs = s.metaballs ∧
      s2.screenWidth = s.screenWidth ∧ s2.screenHeight = s.screenHeight ∧
      ((∀ b ∈ s.metaballs, clickRadius ≤ ballDistance b x y) →
        s2.draggedMetaballIndex = s.draggedMetaballIndex) ∧
      ((∃ b ∈ s.metaballs, ballDistance b x y < clickRadius) →
        ∃ (i : ℕ) (m : Metaball ℝ), s.metaballs[i]? = some m ∧
          s2.draggedMetaballIndex = (i : Int) ∧
          ∀ b ∈ s.metaballs, ballDistance m x y ≤ ballDistance b x y) := by
  have hsne : (withDistances x y 0 s.metaballs).mergeSort
      (fun a b => decide (a.distance ≤ b.distance)) ≠ [] := by
    intro h0
    have hlen := congrArg List.length h0
    rw [List.length_mergeSort, withDistances_length] at hlen
    exact h (List.length_eq_zero.mp hlen)
  cases hsort : (withDistances x y 0 s.metaballs).mergeSort
      (fun a b => decide (a.distance ≤ b.distance)) with
  | nil => exact absurd hsort hsne
  | cons e rest =>
      obtain ⟨hemem, hmin⟩ :=
        mergeSort_head_min (withDistances x y 0 s.metaballs) e rest hsort
      obtain ⟨j, hj, hidx, hdist⟩ := mem_withDistances hemem
      have hmb : e.metaball ∈ s.metaballs := List.mem_iff_getElem?.mpr ⟨j, hj⟩
      have hminb : ∀ b ∈ s.metaballs,
          e.distance ≤ ballDistance b x y := by
        intro b hb
        rcases List.mem_iff_getElem?.mp hb with ⟨jb, hjb⟩
        exact le_of_le_of_eq
          (hmin _ (withDistances_mem_of x y hjb)) rfl
      have honc : onClick s x y = some (if e.distance < clickRadius then
          { s with
              clicking := true
              clickX := x
              clickY := y
              draggedMetaballIndex := (e.index : Int) }
        else { s with clicking := true, clickX := x, clickY := y }) := by
        simp only [onClick]
        rw [hsort]
      by_cases hlt : e.distance < clickRadius
      · rw [if_pos hlt] at honc
        refine ⟨_, honc, rfl, rfl, rfl, rfl, rfl, rfl, ?_, ?_⟩
        · intro hall
          exact absurd hlt (not_lt.mpr (by rw [hdist]; exact hall _ hmb))
        · intro _
          refine ⟨j, e.metaball, hj, ?_, ?_⟩
          · show (e.index : Int) = (j : Int)
            rw [hidx]
          · intro b hb
            have := hminb b hb
            rw [hdist] at this
            exact this
      · rw [if_neg hlt] at honc
        refine ⟨_, honc, rfl, rfl, rfl, rfl, rfl, rfl, fun _ => rfl, ?_⟩
        rintro ⟨b, hb, hblt⟩
        exact absurd (lt_of_le_of_lt (hminb b hb) hblt) hlt

/-- Witness for the amended claim C7: a single metaball and a click
complete normally with the clicking flag set. -/
theorem claimC7_onClick_amended_witness :
    ∃ s2 : Space ℝ,
      onClick (⟨800, 600, [⟨3, 4, 0, 0, 50⟩], false, 0, 0, -1⟩ : Space ℝ)
        0 0 = some s2 ∧ s2.clicking = true := by
  obtain ⟨s2, h1, h2, _⟩ := claimC7_onClick_amended
    (⟨800, 600, [⟨3, 4, 0, 0, 50⟩], false, 0, 0, -1⟩ : Space ℝ) 0 0
    (by simp)
  exact ⟨s2, h1, h2⟩

section DrawLemmas

theorem foldl_add_map (f : Metaball ℝ → ℝ) :
    ∀ (l : List (Metaball ℝ)) (a : ℝ),
      l.foldl (fun sum b => sum + f b) a = a + (l.map f).sum
  | [], a => by simp
  | b :: rest, a => by
      simp [foldl_add_map f rest (a + f b), add_assoc]

theorem cellValue_eq_sum (balls : List (Metaball ℝ)) (px py : ℝ) :
    cellValue balls px py =
      (balls.map fun b => contribution b px py).sum := by
  unfold cellValue
  rw [foldl_add_map]
  simp

theorem key_ne_of_col_ne {W x0 x1 y0 y1 : ℕ} (hx0 : x0 < W) (hx1 : x1 < W)
    (hne : x0 ≠ x1) : y0 * W + x0 ≠ y1 * W + x1 := by
  intro h
  have h0 : (y0 * W + x0) % W = x0 := by
    rw [Nat.add_comm, Nat.add_mul_mod_self_right, Nat.mod_eq_of_lt hx0]
  have h1 : (y1 * W + x1) % W = x1 := by
    rw [Nat.add_comm, Nat.add_mul_mod_self_right, Nat.mod_eq_of_lt hx1]
  rw [h, h1] at h0
  exact hne h0.symm

theorem key_ne_of_row_ne {W x0 y0 y1 : ℕ} (hW : 0 < W) (hne : y0 ≠ y1) :
    y0 * W + x0 ≠ y1 * W + x0 := by
  intro h
  exact hne (Nat.eq_of_mul_eq_mul_right hW (Nat.add_right_cancel h))

theorem innerFold_ne (balls : List (Metaball ℝ)) (W : ℕ) (spacing : ℝ)
    (x : ℕ) :
    ∀ (L : List ℕ) (d : ℕ → ℝ) (k : ℕ), (∀ y ∈ L, k ≠ y * W + x) →
      (L.foldl (fun data y => Function.update data (y * W + x)
        (cellValue balls ((x : ℝ) * spacing) ((y : ℝ) * spacing))) d) k = d k
  | [], _, _, _ => rfl
  | y0 :: rest, d, k, hk => by
      rw [List.foldl_cons, innerFold_ne balls W spacing x rest _ k
        (fun y hy => hk y (List.mem_cons_of_mem _ hy))]
      exact Function.update_noteq (hk y0 (List.mem_cons_self _ _)) _ d

theorem innerFold_hit (balls : List (Metaball ℝ)) (W : ℕ) (spacing : ℝ)
    (x : ℕ) (hx : x < W) :
    ∀ (L : List ℕ) (d : ℕ → ℝ) (y : ℕ), y ∈ L → L.Nodup →
      (L.foldl (fun data y => Function.update data (y * W + x)
        (cellValue balls ((x : ℝ) * spacing) ((y : ℝ) * spacing))) d)
        (y * W + x) =
        cellValue balls ((x : ℝ) * spacing) ((y : ℝ) * spacing)
  | [], _, _, hy, _ => absurd hy (List.not_mem_nil _)
  | y0 :: rest, d, y, hy, hnd => by
      have hW : 0 < W := Nat.pos_of_ne_zero (by omega)
      rw [List.foldl_cons]
      rcases List.mem_cons.mp hy with rfl | hyr
      · rw [innerFold_ne balls W spacing x rest _ (y * W + x)
          (fun y1 hy1 => key_ne_of_row_ne hW
            (fun he => (List.nodup_cons.mp hnd).1 (he ▸ hy1)))]
        exact Function.update_same _ _ _
      · exact innerFold_hit balls W spacing x hx rest _ y hyr
          (List.nodup_cons.mp hnd).2

theorem outerFold_ne (balls : List (Metaball ℝ)) (W H : ℕ) (spacing : ℝ) :
    ∀ (L : List ℕ) (d : ℕ → ℝ) (k : ℕ),
      (∀ x1 ∈ L, ∀ y1 < H, k ≠ y1 * W + x1) →
      (L.foldl (fun data x1 => (List.range H).foldl
        (fun data y => Function.update data (y * W + x1)
          (cellValue balls ((x1 : ℝ) * spacing) ((y : ℝ) * spacing))) data)
        d) k = d k
  | [], _, _, _ => rfl
  | x0 :: rest, d, k, hk => by
      rw [List.foldl_cons, outerFold_ne balls W H spacing rest _ k
        (fun x1 hx1 => hk x1 (List.mem_cons_of_mem _ hx1))]
      exact innerFold_ne balls W spacing x0 (List.range H) d k
        (fun y hy => hk x0 (List.mem_cons_self _ _) y (List.mem_range.mp hy))

theorem outerFold_hit (balls : List (Metaball ℝ)) (W H : ℕ) (spacing : ℝ) :
    ∀ (L : List ℕ) (d : ℕ → ℝ) (x y : ℕ), x ∈ L → L.Nodup →
      (∀ x1 ∈ L, x1 < W) → y < H →
      (L.foldl (fun data x1 => (List.range H).foldl
        (fun data y => Function.update data (y * W + x1)
          (cellValue balls ((x1 : ℝ) * spacing) ((y : ℝ) * spacing))) data)
        d) (y * W + x) =
        cellValue balls ((x : ℝ) * spacing) ((y : ℝ) * spacing)
  | [], _, _, _, hx, _, _, _ => absurd hx (List.not_mem_nil _)
  | x0 :: rest, d, x, y, hx, hnd, hb, hy => by
      rw [List.foldl_cons]
      rcases List.mem_cons.mp hx with rfl | hxr
      · rw [outerFold_ne balls W H spacing rest _ (y * W + x)
          (fun x1 hx1 y1 _ => key_ne_of_col_ne
            (hb x (List.mem_cons_self _ _))
            (hb x1 (List.mem_cons_of_mem _ hx1))
            (fun he => (List.nodup_cons.mp hnd).1 (he ▸ hx1)))]
        exact innerFold_hit balls W spacing x
          (hb x (List.mem_cons_self _ _)) (List.range H) d y
          (List.mem_range.mpr hy) (List.nodup_range H)
      · exact outerFold_hit balls W H spacing rest _ x y hxr
          (List.nodup_cons.mp hnd).2
          (fun x1 hx1 => hb x1 (List.mem_cons_of_mem _ hx1)) hy

end DrawLemmas

/-- Claim C2: after rasterization the buffer entry at index
y * gridWidth + x is the sum over all metaballs of the cutoff field
contribution at the grid point (x * gridSpacing, y * gridSpacing), and a
grid point at distance at least 3 * radius from every metaball holds
exactly 0. -/
theorem claimC2_draw_buffer (balls : List (Metaball ℝ))
    (gridWidth gridHeight : ℕ) (gridSpacing : ℝ) (x y : ℕ)
    (hx : x < gridWidth) (hy : y < gridHeight) :
    drawData balls gridWidth gridHeight gridSpacing (y * gridWidth + x) =
      (balls.map fun b =>
        contribution b ((x : ℝ) * gridSpacing) ((y : ℝ) * gridSpacing)).sum ∧
    ((∀ b ∈ balls, 3 * b.radius ≤
        ballDistance b ((x : ℝ) * gridSpacing) ((y : ℝ) * gridSpacing)) →
      drawData balls gridWidth gridHeight gridSpacing
        (y * gridWidth + x) = 0) := by
  have hmain : drawData balls gridWidth gridHeight gridSpacing
      (y * gridWidth + x) =
      (balls.map fun b =>
        contribution b ((x : ℝ) * gridSpacing) ((y : ℝ) * gridSpacing)).sum := by
    unfold drawData
    rw [outerFold_hit balls gridWidth gridHeight gridSpacing
      (List.range gridWidth) _ x y (List.mem_range.mpr hx)
      (List.nodup_range gridWidth) (fun x1 hx1 => List.mem_range.mp hx1) hy]
    exact cellValue_eq_sum balls _ _
  refine ⟨hmain, ?_⟩
  intro hcut
  rw [hmain]
  apply List.sum_eq_zero
  intro v hv
  rcases List.mem_map.mp hv with ⟨b, hb, rfl⟩
  simp only [contribution]
  rw [if_neg (not_lt.mpr (hcut b hb))]

/-- Witness for claim C2: a one-cell grid with a single metaball far from
the sampled point. -/
theorem claimC2_draw_buffer_witness :
    drawData [⟨5, 0, 0, 0, 1⟩] 1 1 1 (0 * 1 + 0) =
      ([(⟨5, 0, 0, 0, 1⟩ : Metaball ℝ)].map fun b =>
        contribution b (((0 : ℕ) : ℝ) * 1) (((0 : ℕ) : ℝ) * 1)).sum :=
  (claimC2_draw_buffer [⟨5, 0, 0, 0, 1⟩] 1 1 1 0 0 (by norm_num)
    (by norm_num)).1

/-- Claim C8 (the code lacks the guard the claim describes): at a grid
point exactly coincident with a metaball center the distance is 0, the
dist < l branch is still taken, and the contribution formula is evaluated
with the division by dist = 0 unguarded.  In IEEE arithmetic r / 0 is
Infinity and that value is stored in the buffer; in this real-valued model,
where division by zero yields 0, the evaluated formula equals 1/6. -/
theorem claimC8_no_dist_guard (b : Metaball ℝ) (hr : 0 < b.radius) :
    ballDistance b b.x b.y = 0 ∧
    ballDistance b b.x b.y < 3 * b.radius ∧
    contribution b b.x b.y =
      b.radius / 0 - b.radius * (0 - 3 * b.radius) /
        (3 * b.radius * (3 * b.radius - b.radius)) -
        b.radius / (3 * b.radius) ∧
    contribution b b.x b.y = 1 / 6 := by
  have hd : ballDistance b b.x b.y = 0 := by
    unfold ballDistance
    simp
  have hl : (0 : ℝ) < 3 * b.radius := by linarith
  have hform : contribution b b.x b.y =
      b.radius / 0 - b.radius * (0 - 3 * b.radius) /
        (3 * b.radius * (3 * b.radius - b.radius)) -
        b.radius / (3 * b.radius) := by
    simp only [contribution]
    rw [hd, if_pos hl]
  have hrne : b.radius ≠ 0 := ne_of_gt hr
  refine ⟨hd, by rw [hd]; exact hl, hform, ?_⟩
  rw [hform, div_zero,
    show 3 * b.radius - b.radius = 2 * b.radius by ring]
  rw [show b.radius * (0 - 3 * b.radius) = -(3 * (b.radius * b.radius)) by
    ring, show 3 * b.radius * (2 * b.radius) = 6 * (b.radius * b.radius) by
    ring]
  have hsq : b.radius * b.radius ≠ 0 := mul_ne_zero hrne hrne
  field_simp
  ring

/-- Witness for claim C8: the concrete metaball at the origin with radius 1
evaluated at its own center. -/
theorem claimC8_no_dist_guard_witness :
    contribution ⟨0, 0, 0, 0, 1⟩ 0 0 = 1 / 6 :=
  (claimC8_no_dist_guard ⟨0, 0, 0, 0, 1⟩ (by norm_num)).2.2.2
